import Mathlib

/-!
Verification of the work-hours Telegram bot (tgworkhoursbot).

The repository has two implementations of the same domain logic:
* a Cloudflare Workers + KV variant (`src/src/worker.js`), and
* a SQLite + Telegraf variant (`src/db.js`, bot entry file).

This file gives a shallow embedding of both data models and the operations
the spec's claims are about, and proves (or refutes) each claim.

Times are modelled as integers: UTC milliseconds for the worker variant,
UTC seconds for the SQLite variant, exactly as in the sources.
-/

/-! ## Calendar keying

`src/src/worker.js` derives calendar keys from `new Date(ms)` UTC accessors
(`getUTCFullYear`/`getUTCMonth`/`getUTCDate`/`getUTCDay`) and `Date.UTC`.
ECMAScript's proleptic-Gregorian date computation is modelled with the
standard civil-from-days / days-from-civil algorithms on the day number
`⌊ms / 86400000⌋`.  A calendar date is modelled as the `(year, month, day)`
triple; the JS code renders it as the zero-padded string `Y-MM-DD`
(`dateKeyLocal`), an injective rendering of the triple. -/

/-- Milliseconds per day, the divisor used throughout `worker.js`. -/
def msPerDay : Int := 86400000

/-- Day number of a UTC millisecond instant, as ECMAScript's `Date` does
(floor division; Lean's `Int` `/` is euclidean division, which agrees with
floor division for a positive divisor). -/
def epochDay (ms : Int) : Int := ms / msPerDay

/-- The `(y, m, d)` Gregorian civil date of day number `z` (day 0 =
1970-01-01), as computed by ECMAScript `Date` UTC accessors. -/
def civilFromDays (z0 : Int) : Int × Int × Int :=
  let z := z0 + 719468
  let era := z / 146097
  let doe := z - era * 146097
  let yoe := (doe - doe / 1460 + doe / 36524 - doe / 146096) / 365
  let y := yoe + era * 400
  let doy := doe - (365 * yoe + yoe / 4 - yoe / 100)
  let mp := (5 * doy + 2) / 153
  let d := doy - (153 * mp + 2) / 5 + 1
  let m := mp + (if mp < 10 then 3 else -9)
  (y + (if m ≤ 2 then 1 else 0), m, d)

/-- Day number of a civil date: the computation behind ECMAScript
`Date.UTC(y, m, d)` (divided by `msPerDay`). -/
def daysFromCivil : Int × Int × Int → Int
  | (y0, m, d) =>
    let y := y0 - (if m ≤ 2 then 1 else 0)
    let era := y / 400
    let yoe := y - era * 400
    let doy := (153 * (m + (if m > 2 then -3 else 9)) + 2) / 5 + d - 1
    let doe := yoe * 365 + yoe / 4 - yoe / 100 + doy
    era * 146097 + doe - 719468

/-- First day (within an era) of year-of-era `yoe`. -/
def yearStart (yoe : Int) : Int := 365 * yoe + yoe / 4 - yoe / 100

/-- Year-of-era of day-of-era `doe`, as in `civilFromDays`. -/
def yoeOf (doe : Int) : Int := (doe - doe / 1460 + doe / 36524 - doe / 146096) / 365

/-- A calendar day key: the `(year, month, day)` triple that
`dateKeyLocal` in `worker.js` renders as the padded string `Y-MM-DD`. -/
def DayKey := Int × Int × Int
deriving DecidableEq

/-- `dateKeyLocal(env, localMs)` of `worker.js`: the civil date of the
local-shifted instant, read off a `new Date(localMs)` with UTC accessors. -/
def dateKeyLocal (localMs : Int) : DayKey := civilFromDays (epochDay localMs)

/-- ECMAScript `new Date(ms).getUTCDay()`: 0 = Sunday .. 6 = Saturday.
Day 0 (1970-01-01) was a Thursday. -/
def getUTCDay (ms : Int) : Int := (epochDay ms + 4) % 7

/-- `weekStartLocal` of the Sunday-start worker variant
(`src/src/worker.js` lines 157-162): midnight of the Sunday beginning the
local week containing `localMs`, via `Date.UTC` on the shifted date. -/
def weekStartLocalSun (localMs : Int) : Int :=
  let dow := getUTCDay localMs
  let start := localMs - dow * msPerDay
  daysFromCivil (civilFromDays (epochDay start)) * msPerDay

/-- `weekStartLocal` of the Monday-start worker variant
(`src/src/worker.js` lines 541-546), `dow = (getUTCDay + 6) % 7`. -/
def weekStartLocalMon (localMs : Int) : Int :=
  let dow := (getUTCDay localMs + 6) % 7
  let start := localMs - dow * msPerDay
  daysFromCivil (civilFromDays (epochDay start)) * msPerDay

/-- The week-start convention is a configuration choice (spec §4.3): `true`
selects the Sunday-start variant, `false` the Monday-start variant. -/
def weekStartLocal : Bool → Int → Int
  | true, localMs => weekStartLocalSun localMs
  | false, localMs => weekStartLocalMon localMs

/-- The week key: the day key of the week's first day.  `worker.js` uses
`dateKeyLocal(env, start)` of the window start as the week identity (for
the lock key and the CSV file name); `db.js`'s `isoMonday` is the same
Monday-start date string. -/
def weekKey (sundayStart : Bool) (localMs : Int) : DayKey :=
  dateKeyLocal (weekStartLocal sundayStart localMs)

/-! ## Worker-variant data model (src/src/worker.js, Cloudflare KV) -/

/-- One entry of a day record's `sessions` array: `{ inUtcMs, outUtcMs? }`. -/
structure Session where
  inUtcMs : Int
  outUtcMs : Option Int
deriving DecidableEq

/-- A day bucket `d:<user>:<day>`: `{ sessions: [...], totalMs }`. -/
structure DayRec where
  sessions : List Session
  totalMs : Int
deriving DecidableEq

/-- Per-user slice of the KV store: the open marker `u:<user>:open` (its
`startUtcMs` field), the day buckets `d:<user>:<day>` (modelled as a map
from day key to optional record), and the chats registered in
`meta:<user>`. -/
structure WUser where
  openMs : Option Int
  days : DayKey → Option DayRec
  chats : List Int

/-- Whole-store state for the weekly job: the users that have a `meta:*`
key (in KV list order), the `weeklylock:*` keys present, and a counter of
Telegram sends (messages and documents) performed so far. -/
structure WState where
  users : List (String × WUser)
  locks : List DayKey
  sent : Nat

/-- Worker environment.  `TZ_OFFSET` enters every computation only as
`off * 3600_000` (`nowLocal`), so it is folded in as `offsetMs`. -/
structure Env where
  offsetMs : Int

/-- `nowLocal(env).localMs` for a given `Date.now()` value `utcMs`. -/
def localMsOf (env : Env) (utcMs : Int) : Int := utcMs + env.offsetMs

/-- JS truthiness of `open?.startUtcMs`: a stored start of exactly `0` is
falsy, so the code treats such a marker as absent. -/
def truthyStart : Option Int → Option Int
  | some s => if s = 0 then none else some s
  | none => none

/-- KV `put` of a day record. -/
def putDay (k : DayKey) (v : DayRec) (f : DayKey → Option DayRec) :
    DayKey → Option DayRec :=
  fun k' => if k' = k then some v else f k'

/-- KV `delete` of a day record. -/
def deleteDay (k : DayKey) (f : DayKey → Option DayRec) :
    DayKey → Option DayRec :=
  fun k' => if k' = k then none else f k'

/-- `getJSON(env.HOURS, kDay(u, day), { sessions: [], totalMs: 0 })`. -/
def getDayD (f : DayKey → Option DayRec) (k : DayKey) : DayRec :=
  (f k).getD ⟨[], 0⟩

/-- Result of `cmdIn` as seen by the user. -/
inductive InRes where
  | alreadyOpen
  | clockedIn
deriving DecidableEq

/-- Result of `cmdOut` as seen by the user: the `Session:` and
`Today so far:` figures of the reply, or the not-clocked-in refusal. -/
inductive OutRes where
  | noOpen
  | clockedOut (sessionMs : Int) (todayMs : Int)
deriving DecidableEq

/-- The scan `for (i = sessions.length - 1; i >= 0; i--)` of `cmdOut`,
written on the reversed list: close the first still-open entry found. -/
def closeFirstOpen : List Session → Int → List Session
  | [], _ => []
  | s :: rest, t =>
    if s.outUtcMs = none then { s with outUtcMs := some t } :: rest
    else s :: closeFirstOpen rest t

/-- Close the most recent still-open session entry (scanning from the end
of the array), as `cmdOut` does. -/
def closeLastOpen (ss : List Session) (t : Int) : List Session :=
  (closeFirstOpen ss.reverse t).reverse

/-- `cmdIn(env, chatId, userId)` acting on the user's KV slice. -/
def cmdIn (env : Env) (utcMs : Int) (u : WUser) : WUser × InRes :=
  match truthyStart u.openMs with
  | some _ => (u, .alreadyOpen)
  | none =>
    let dayKey := dateKeyLocal (localMsOf env utcMs)
    let rec0 := getDayD u.days dayKey
    let rec1 : DayRec := ⟨rec0.sessions ++ [⟨utcMs, none⟩], rec0.totalMs⟩
    ({ u with openMs := some utcMs, days := putDay dayKey rec1 u.days }, .clockedIn)

/-- `cmdOut(env, chatId, userId)` acting on the user's KV slice. -/
def cmdOut (env : Env) (utcMs : Int) (u : WUser) : WUser × OutRes :=
  match truthyStart u.openMs with
  | none => (u, .noOpen)
  | some st =>
    let delta := utcMs - st
    let dayKey := dateKeyLocal (localMsOf env utcMs)
    let rec0 := getDayD u.days dayKey
    let rec1 : DayRec := ⟨closeLastOpen rec0.sessions utcMs, rec0.totalMs + delta⟩
    ({ u with openMs := none, days := putDay dayKey rec1 u.days },
     .clockedOut delta rec1.totalMs)

/-- The `total` (milliseconds) computed and reported by `cmdToday`:
today's `rec?.totalMs || 0`, plus `utcMs - open.startUtcMs` when an open
marker is (truthily) present. -/
def cmdTodayTotal (env : Env) (utcMs : Int) (u : WUser) : Int :=
  let dayKey := dateKeyLocal (localMsOf env utcMs)
  let total := ((u.days dayKey).map DayRec.totalMs).getD 0
  match truthyStart u.openMs with
  | some st => total + (utcMs - st)
  | none => total

/-- `fmtHM(ms)` as the `(hours, minutes)` pair it renders:
`s = max(0, floor(ms/1000))`, then `(floor(s/3600), floor(s%3600/60))`. -/
def fmtHM (ms : Int) : Int × Int :=
  let s := max 0 (ms / 1000)
  (s / 3600, s % 3600 / 60)

/-- `minutes(ms) = max(0, floor(ms/60000))`. -/
def minutes (ms : Int) : Int := max 0 (ms / 60000)

/-- `prevLocalWeekWindow` (Sunday-start worker file): anchor 12 hours
back, then `[weekStartLocal(anchor), start + 7 days)`. -/
def prevLocalWeekWindow (localMs : Int) : Int × Int :=
  let anchor := localMs - 12 * 3600000
  let start := weekStartLocalSun anchor
  (start, start + 7 * msPerDay)

/-- Sum of `rec?.totalMs || 0` over the seven day keys of the window, the
closed part of the week total in `runWeekly` (and `cmdWeek`/`cmdPay`). -/
def closedWeekSum (start : Int) (u : WUser) : Int :=
  ((List.range 7).map fun i : Nat =>
    ((u.days (dateKeyLocal (start + (i : Int) * msPerDay))).map DayRec.totalMs).getD 0).sum

/-- The week `total` computed by `runWeekly` for one user: the closed-day
sums plus, for an open session, `extra = max(0, min(utcMs, end) - start)`,
added only when positive. -/
def weeklyTotal (utcMs start endW : Int) (u : WUser) : Int :=
  let closed := closedWeekSum start u
  match truthyStart u.openMs with
  | some st =>
    let extra := max 0 (min utcMs endW - st)
    if 0 < extra then closed + extra else closed
  | none => closed

/-- `deleteWeekRange(env, userId, start, end)`: deletes the day keys of
`ms = start, start + 86400000, ...` while `ms < end`, then unconditionally
deletes the open-session marker. -/
def deleteWeekRange (start endW : Int) (u : WUser) : WUser :=
  let n := ((endW - start + (msPerDay - 1)) / msPerDay).toNat
  { u with
    openMs := none,
    days := ((List.range n).map fun i : Nat =>
      dateKeyLocal (start + (i : Int) * msPerDay)).foldl
        (fun f k => deleteDay k f) u.days }

/-- Per-user step of `runWeekly`: a user with no registered chats is
skipped (`if (!meta.chats.length) continue`); otherwise the summary and
the CSV document are sent to every chat (two sends per chat) and the week
range is cleared.  The rendered text does not affect the store and is
abstracted to the count of sends. -/
def processUser (start endW : Int) (u : WUser) : WUser × Nat :=
  if u.chats.length = 0 then (u, 0)
  else (deleteWeekRange start endW u, 2 * u.chats.length)

/-- `runWeekly(env)` at instant `utcMs`, over all `meta:*` users. -/
def runWeekly (env : Env) (utcMs : Int) (s : WState) : WState :=
  let w := prevLocalWeekWindow (localMsOf env utcMs)
  { users := s.users.map fun p => (p.1, (processUser w.1 w.2 p.2).1),
    locks := s.locks,
    sent := s.sent + (s.users.map fun p => (processUser w.1 w.2 p.2).2).sum }

/-- The `scheduled` cron entry: compute the previous week's
`weeklylock:` key; bail out if it is present; otherwise set it and run
the weekly job. -/
def scheduled (env : Env) (utcMs : Int) (s : WState) : WState :=
  let w := prevLocalWeekWindow (localMsOf env utcMs)
  let lockKey := dateKeyLocal w.1
  if lockKey ∈ s.locks then s
  else runWeekly env utcMs { s with locks := lockKey :: s.locks }

/-- The `GET /admin/run-weekly` route (after the secret check): it awaits
`runWeekly(env)` directly and takes no lock. -/
def adminRunWeekly (env : Env) (utcMs : Int) (s : WState) : WState :=
  runWeekly env utcMs s

/-- Number of open-session markers a worker-variant user has (the KV key
`u:<user>:open` either exists or not). -/
def markerCount (u : WUser) : Nat :=
  match u.openMs with
  | some _ => 1
  | none => 0

/-- `lookup` on the worker store's user association list. -/
def lookupUser (uid : String) : List (String × WUser) → Option WUser
  | [] => none
  | p :: rest => if p.1 = uid then some p.2 else lookupUser uid rest

/-! ## Rate resolver (worker variant) -/

/-- A JS number as classified by `Number.isFinite`: a finite value
(modelled as a rational) or one of `NaN`, `Infinity`, `-Infinity`. -/
inductive JSNum where
  | num (q : ℚ)
  | nan
  | posInf
  | negInf
deriving DecidableEq

/-- `Number.isFinite`. -/
def JSNum.isFiniteNum : JSNum → Bool
  | .num _ => true
  | _ => false

/-- `rate(env)`: `Number(env.PAY_RATE)` when finite, else the 2.5
default.  An unset variable gives `NaN`, covered by the catch-all. -/
def rate (payRate : Option JSNum) : ℚ :=
  match payRate with
  | some (.num q) => q
  | _ => 5 / 2

/-- `userRate(env, userId)`: the per-user `cfg.rate` override whenever it
is a finite number (`Number.isFinite(r)`; positivity is not checked),
else the global rate. -/
def userRate (cfgRate : Option JSNum) (payRate : Option JSNum) : ℚ :=
  match cfgRate with
  | some (.num q) => q
  | _ => rate payRate

/-- `setUserRate(env, userId, newRate)`: throws `bad_rate` (modelled as
`none`, with no write to the store) unless the value is finite and
positive; on success stores the override and returns it. -/
def setUserRate (v : JSNum) : Option (Option JSNum × ℚ) :=
  match v with
  | .num q => if q ≤ 0 then none else some (some (.num q), q)
  | _ => none

/-! ## SQLite-variant data model (src/db.js) -/

/-- One row of the `shifts` table for a user.  A per-user ledger is kept
newest-first, so the head plays the role of the highest `id`. -/
structure Shift where
  start_ts : Int
  end_ts : Option Int
  day_key : DayKey
  week_key : DayKey
deriving DecidableEq

/-- The user's `shifts` rows, newest first. -/
abbrev Ledger := List Shift

/-- `dayKey(ts)` in `db.js`: the local calendar date of unix-seconds `ts`
under the process's fixed UTC offset `off` (seconds), as produced by the
dayjs `format('YYYY-MM-DD')` call. -/
def dbDayKey (off ts : Int) : DayKey := civilFromDays ((ts + off) / 86400)

/-- `isoMonday(ts)` in `db.js`: the date of the Monday of the ISO week of
`ts` (dayjs `isoWeekday(1).format('YYYY-MM-DD')`); Monday-of-week is
`d - ((d + 3) % 7)` on day numbers since day 0 was a Thursday. -/
def dbIsoMonday (off ts : Int) : DayKey :=
  let d := (ts + off) / 86400
  civilFromDays (d - (d + 3) % 7)

/-- `getOpenShiftStmt`: the latest shift with `end_ts IS NULL`. -/
def getOpenShift (l : Ledger) : Option Shift :=
  l.find? fun sh => sh.end_ts.isNone

/-- Number of open rows (`end_ts IS NULL`) for the user — the
`countOpenSessions` of the spec. -/
def openCount (l : Ledger) : Nat := l.countP fun sh => sh.end_ts.isNone

/-- `clockIn(userId, nowTs)`; the `Bool` is the `ok` flag. -/
def clockIn (off ts : Int) (l : Ledger) : Ledger × Bool :=
  match getOpenShift l with
  | some _ => (l, false)
  | none => (⟨ts, none, dbDayKey off ts, dbIsoMonday off ts⟩ :: l, true)

/-- `endShiftStmt` applied to the row `getOpenShiftStmt` found: set
`end_ts` on the newest open row. -/
def endShift (ts : Int) : Ledger → Ledger
  | [] => []
  | sh :: rest =>
    if sh.end_ts.isNone then { sh with end_ts := some ts } :: rest
    else sh :: endShift ts rest

/-- `durationHours`: `Math.max(0, (endTs - startTs) / 3600)`. -/
def durationHours (startTs endTs : Int) : ℚ :=
  max 0 ((endTs - startTs : ℚ) / 3600)

/-- `clockOut(userId, nowTs)`; on success returns the duration the reply
reports. -/
def clockOut (off ts : Int) (l : Ledger) : Ledger × Option ℚ :=
  match getOpenShift l with
  | some o => (endShift ts l, some (durationHours o.start_ts ts))
  | none => (l, none)

/-- `getTodayHours`: `sumDayStmt` sums `(end_ts - start_ts)/3600.0` over
the rows with today's `day_key`, counting rows with `end_ts IS NULL`
as 0. -/
def getTodayHours (off nowTs : Int) (l : Ledger) : ℚ :=
  ((l.filter fun sh => sh.day_key = dbDayKey off nowTs).map fun sh =>
    match sh.end_ts with
    | some e => (e - sh.start_ts : ℚ) / 3600
    | none => 0).sum

/-- `resetWeek`: `DELETE FROM shifts WHERE user_id = ? AND week_key = ?`;
returns the number of removed rows (`changes`). -/
def resetWeek (off nowTs : Int) (l : Ledger) : Ledger × Nat :=
  let wk := dbIsoMonday off nowTs
  (l.filter fun sh => sh.week_key ≠ wk, l.countP fun sh => sh.week_key = wk)

/-- A clock-in or clock-out call issued against the ledger. -/
inductive DbOp where
  | cin (ts : Int)
  | cout (ts : Int)

/-- Apply a sequence of `clockIn`/`clockOut` calls. -/
def applyOps (off : Int) : List DbOp → Ledger → Ledger
  | [], l => l
  | .cin ts :: rest, l => applyOps off rest (clockIn off ts l).1
  | .cout ts :: rest, l => applyOps off rest (clockOut off ts l).1

/-! ## Node-variant weekly cron (bot entry file) -/

/-- The Sunday-23:00 cron callback of the node variant: a single
`try { for (const userId of users) ... } catch (err) { console.error }`
around the whole user loop.  Delivery to a user either succeeds or throws
(`fails u`); a throw aborts the loop and is logged.  Returns the users
that were fully delivered and whether an error was logged. -/
def cronWeeklyDeliver (fails : Int → Bool) : List Int → List Int × Bool
  | [] => ([], false)
  | u :: rest =>
    if fails u then ([], true)
    else
      let r := cronWeeklyDeliver fails rest
      (u :: r.1, r.2)

/-! ## Calendar correctness lemmas -/

set_option maxHeartbeats 1000000 in
theorem yoeOf_spec (doe : Int) (h0 : 0 ≤ doe) (h1 : doe ≤ 146096) :
    0 ≤ yoeOf doe ∧ yoeOf doe ≤ 399 ∧ yearStart (yoeOf doe) ≤ doe ∧
      doe - yearStart (yoeOf doe) ≤ 365 := by
  unfold yoeOf yearStart
  rcases eq_or_lt_of_le h1 with heq | hlt
  · subst heq
    decide
  · have hg : doe / 146096 = 0 := by omega
    obtain ⟨f, c, hf, hc0, hc1, hdoe⟩ :
        ∃ f c, f = doe / 36524 ∧ 0 ≤ c ∧ c ≤ 36523 ∧ doe = 36524 * f + c :=
      ⟨doe / 36524, doe - 36524 * (doe / 36524), rfl, by omega, by omega, by omega⟩
    obtain ⟨u, hu⟩ : ∃ u, u = (24 * f + c) / 1460 := ⟨_, rfl⟩
    have he : doe / 1460 = 25 * f + u := by omega
    obtain ⟨w, hw⟩ : ∃ w, w = (c - u) / 365 := ⟨_, rfl⟩
    have hb : (doe - doe / 1460 + doe / 36524 - doe / 146096) / 365 = 100 * f + w := by
      omega
    have hw4 : w / 4 = (c - u) / 1460 := by omega
    have hwb : 0 ≤ w ∧ w ≤ 99 := by omega
    have hv : (c - u) / 1460 ≤ u := by omega
    have hq : (100 * f + w) / 4 = 25 * f + w / 4 := by omega
    have hd : (100 * f + w) / 100 = f := by omega
    have hi : (doe - doe / 1460 + doe / 36524 - doe / 146096) / 365 / 4 = 25 * f + w / 4 := by
      omega
    have hj : (doe - doe / 1460 + doe / 36524 - doe / 146096) / 365 / 100 = f := by
      omega
    have hlow : 365 * w + (c - u) / 1460 ≤ c := by omega
    have hhigh : c - (365 * w + (c - u) / 1460) ≤ 365 := by omega
    omega

set_option maxHeartbeats 1000000 in
theorem days_roundtrip (z : Int) : daysFromCivil (civilFromDays z) = z := by
  have hyoe := yoeOf_spec (z + 719468 - (z + 719468) / 146097 * 146097) (by omega) (by omega)
  unfold yoeOf yearStart at hyoe
  unfold civilFromDays
  dsimp only
  set era := (z + 719468) / 146097 with hera
  set doe := z + 719468 - era * 146097 with hdoe
  set yoe := (doe - doe / 1460 + doe / 36524 - doe / 146096) / 365 with hyoedef
  set doy := doe - (365 * yoe + yoe / 4 - yoe / 100) with hdoy
  set mp := (5 * doy + 2) / 153 with hmp
  unfold daysFromCivil
  dsimp only
  have ha : (153 * (mp + 3 + -3) + 2) / 5 = (153 * mp + 2) / 5 := by congr 1; ring
  have hb : (153 * (mp + -9 + 9) + 2) / 5 = (153 * mp + 2) / 5 := by congr 1; ring
  have hl0 : (yoe + era * 400 + 0 - 0) / 400 = era := by omega
  have hl1 : (yoe + era * 400 + 1 - 1) / 400 = era := by omega
  have hm0 : (yoe + era * 400 + 0 - 0 - (yoe + era * 400 + 0 - 0) / 400 * 400) / 4 = yoe / 4 := by
    omega
  have hm1 : (yoe + era * 400 + 1 - 1 - (yoe + era * 400 + 1 - 1) / 400 * 400) / 4 = yoe / 4 := by
    omega
  have hn0 : (yoe + era * 400 + 0 - 0 - (yoe + era * 400 + 0 - 0) / 400 * 400) / 100
      = yoe / 100 := by omega
  have hn1 : (yoe + era * 400 + 1 - 1 - (yoe + era * 400 + 1 - 1) / 400 * 400) / 100
      = yoe / 100 := by omega
  split_ifs <;> omega

/-- `civilFromDays` never maps two distinct day numbers to the same date. -/
theorem civilFromDays_injective {z1 z2 : Int}
    (h : civilFromDays z1 = civilFromDays z2) : z1 = z2 := by
  have := congrArg daysFromCivil h
  rwa [days_roundtrip, days_roundtrip] at this

theorem weekStartLocalSun_eq (t : Int) :
    weekStartLocalSun t = (t / msPerDay - (t / msPerDay + 4) % 7) * msPerDay := by
  unfold weekStartLocalSun getUTCDay epochDay msPerDay
  dsimp only
  rw [days_roundtrip]
  congr 1
  omega

theorem weekStartLocalMon_eq (t : Int) :
    weekStartLocalMon t
      = (t / msPerDay - ((t / msPerDay + 4) % 7 + 6) % 7) * msPerDay := by
  unfold weekStartLocalMon getUTCDay epochDay msPerDay
  dsimp only
  rw [days_roundtrip]
  congr 1
  omega

theorem weekStartLocal_fixed {b : Bool} {w t : Int}
    (hw : weekStartLocal b w = w) (h1 : w ≤ t) (h2 : t < w + 7 * msPerDay) :
    weekStartLocal b t = w := by
  cases b
  · simp only [weekStartLocal] at hw ⊢
    rw [weekStartLocalMon_eq] at hw ⊢
    unfold msPerDay at *
    omega
  · simp only [weekStartLocal] at hw ⊢
    rw [weekStartLocalSun_eq] at hw ⊢
    unfold msPerDay at *
    omega

theorem weekStartLocal_prev {b : Bool} {w t : Int}
    (hw : weekStartLocal b w = w) (h1 : w - msPerDay ≤ t) (h2 : t < w) :
    weekStartLocal b t = w - 7 * msPerDay := by
  cases b
  · simp only [weekStartLocal] at hw ⊢
    rw [weekStartLocalMon_eq] at hw ⊢
    unfold msPerDay at *
    omega
  · simp only [weekStartLocal] at hw ⊢
    rw [weekStartLocalSun_eq] at hw ⊢
    unfold msPerDay at *
    omega

/-- Week starts are aligned to day boundaries, so distinct week starts give
distinct day numbers and hence distinct keys. -/
theorem weekStartLocal_mul (b : Bool) (t : Int) :
    ∃ k, weekStartLocal b t = k * msPerDay := by
  cases b
  · exact ⟨_, weekStartLocalMon_eq t⟩
  · exact ⟨_, weekStartLocalSun_eq t⟩

/-! ## Session-ledger lemmas (SQLite variant) -/

theorem getOpenShift_none_iff (l : Ledger) :
    getOpenShift l = none ↔ openCount l = 0 := by
  unfold getOpenShift openCount
  rw [List.find?_eq_none, List.countP_eq_zero]

theorem clockIn_of_open (off ts : Int) (l : Ledger) (sh : Shift)
    (h : getOpenShift l = some sh) : clockIn off ts l = (l, false) := by
  unfold clockIn
  rw [h]

theorem openCount_endShift (ts : Int) (l : Ledger) :
    openCount (endShift ts l) = openCount l - 1 := by
  induction l with
  | nil => rfl
  | cons sh rest ih =>
    unfold endShift
    by_cases h : sh.end_ts.isNone
    · rw [if_pos h]
      unfold openCount at *
      simp [List.countP_cons, h]
    · rw [if_neg h]
      unfold openCount at *
      simp [List.countP_cons, h]
      omega

theorem openCount_clockIn (off ts : Int) (l : Ledger) :
    openCount (clockIn off ts l).1 = max (openCount l) 1 := by
  unfold clockIn
  cases hfind : getOpenShift l with
  | none =>
    have h0 : openCount l = 0 := (getOpenShift_none_iff l).mp hfind
    unfold openCount at *
    simp [List.countP_cons, h0]
  | some sh =>
    have h1 : 1 ≤ openCount l := by
      unfold getOpenShift at hfind
      have hmem := List.mem_of_find?_eq_some hfind
      have hp := List.find?_some hfind
      unfold openCount
      calc 1 = [sh].countP (fun s => s.end_ts.isNone) := by simp [hp]
        _ ≤ _ := by
          apply List.Sublist.countP_le
          simpa using hmem
    simp only
    omega

theorem openCount_clockOut (off ts : Int) (l : Ledger) :
    openCount (clockOut off ts l).1 = openCount l - 1 ∨
      (openCount l = 0 ∧ (clockOut off ts l).1 = l) := by
  unfold clockOut
  cases hfind : getOpenShift l with
  | none => exact Or.inr ⟨(getOpenShift_none_iff l).mp hfind, rfl⟩
  | some sh => exact Or.inl (openCount_endShift ts l)

/-- C1: for every user and every finite sequence of clockIn/clockOut calls
applied to a reachable ledger state (one with at most one open row), at
most one open session exists at every point; clockIn creates an open
session only when none exists, and clockOut closes the existing one.  In
the worker variant the open session is the single optional KV marker, so
its count is 0 or 1 outright. -/
theorem open_sessions_at_most_one (off : Int) (ops : List DbOp) (l : Ledger)
    (h : openCount l ≤ 1) :
    openCount (applyOps off ops l) ≤ 1 ∧
    (openCount l = 0 → ∀ ts, openCount (clockIn off ts l).1 = 1) ∧
    (1 ≤ openCount l → ∀ ts, clockIn off ts l = (l, false)) ∧
    (∀ ts, openCount (clockOut off ts l).1 = openCount l - 1) ∧
    (∀ u : WUser, markerCount u ≤ 1) := by
  refine ⟨?_, ?_, ?_, ?_, ?_⟩
  · induction ops generalizing l with
    | nil => exact h
    | cons op rest ih =>
      cases op with
      | cin ts =>
        apply ih
        rw [openCount_clockIn]
        omega
      | cout ts =>
        apply ih
        rcases openCount_clockOut off ts l with h1 | ⟨_, h2⟩
        · omega
        · rw [h2]; exact h
  · intro h0 ts
    rw [openCount_clockIn]
    omega
  · intro h1 ts
    cases hfind : getOpenShift l with
    | none =>
      rw [(getOpenShift_none_iff l).mp hfind] at h1
      omega
    | some sh => exact clockIn_of_open off ts l sh hfind
  · intro ts
    rcases openCount_clockOut off ts l with h1 | ⟨h0, h2⟩
    · exact h1
    · rw [h2, h0]
  · intro u
    unfold markerCount
    cases u.openMs <;> simp

/-- Witness for C1 at a concrete ledger: the empty ledger has no open row,
and a clock-in/clock-out pair keeps the invariant. -/
theorem open_sessions_at_most_one_witness :
    openCount (applyOps 0 [DbOp.cin 100, DbOp.cout 200] []) ≤ 1 ∧
    (openCount ([] : Ledger) = 0 → ∀ ts, openCount (clockIn 0 ts []).1 = 1) ∧
    (1 ≤ openCount ([] : Ledger) → ∀ ts, clockIn 0 ts [] = ([], false)) ∧
    (∀ ts, openCount (clockOut 0 ts []).1 = openCount ([] : Ledger) - 1) ∧
    (∀ u : WUser, markerCount u ≤ 1) :=
  open_sessions_at_most_one 0 [DbOp.cin 100, DbOp.cout 200] [] (by decide)

/-! ## Week-key claims -/

/-- C6: for instants `t1, t2` in the same 7-day window anchored at the
configured week-start day (a window `[w, w + 7 days)` with `w` a fixed
point of `weekStartLocal`), the week keys agree; for `t` in the day just
before the window start the key differs; and equal week keys always force
equal week starts, so keys are stable and collision-free across the year
boundary for both the Sunday-start and Monday-start configurations. -/
theorem weekKey_stable_and_collision_free (b : Bool) (w t1 t2 t : Int)
    (hw : weekStartLocal b w = w)
    (h1a : w ≤ t1) (h1b : t1 < w + 7 * msPerDay)
    (h2a : w ≤ t2) (h2b : t2 < w + 7 * msPerDay)
    (hta : w - msPerDay ≤ t) (htb : t < w) :
    weekKey b t1 = weekKey b t2 ∧
    weekKey b t ≠ weekKey b t1 ∧
    ∀ a c : Int, weekKey b a = weekKey b c →
      weekStartLocal b a = weekStartLocal b c := by
  have e1 : weekStartLocal b t1 = w := weekStartLocal_fixed hw h1a h1b
  have e2 : weekStartLocal b t2 = w := weekStartLocal_fixed hw h2a h2b
  have et : weekStartLocal b t = w - 7 * msPerDay := weekStartLocal_prev hw hta htb
  refine ⟨?_, ?_, ?_⟩
  · unfold weekKey
    rw [e1, e2]
  · unfold weekKey dateKeyLocal
    rw [e1, et]
    intro hcon
    have hinj := civilFromDays_injective hcon
    obtain ⟨k, hk⟩ := weekStartLocal_mul b w
    rw [hw] at hk
    unfold epochDay msPerDay at hinj
    unfold msPerDay at hk
    omega
  · intro a c hac
    unfold weekKey dateKeyLocal at hac
    have hinj := civilFromDays_injective hac
    obtain ⟨ka, hka⟩ := weekStartLocal_mul b a
    obtain ⟨kc, hkc⟩ := weekStartLocal_mul b c
    rw [hka, hkc] at hinj ⊢
    unfold epochDay msPerDay at hinj
    unfold msPerDay
    omega

/-- Witness for C6 at the window starting Sunday 1970-01-04 (day 3,
`w = 259200000` ms): two instants inside the window share the key, the
instant one millisecond before differs. -/
theorem weekKey_stable_witness :
    weekKey true 259200000 = weekKey true 259200001 ∧
    weekKey true 259199999 ≠ weekKey true 259200000 ∧
    ∀ a c : Int, weekKey true a = weekKey true c →
      weekStartLocal true a = weekStartLocal true c :=
  weekKey_stable_and_collision_free true 259200000 259200000 259200001 259199999
    (by decide) (by decide) (by decide) (by decide) (by decide) (by decide)
    (by decide)

/-! ## Weekly rollover claims (worker variant) -/

theorem lookupUser_map (uid : String) (f : WUser → WUser)
    (l : List (String × WUser)) :
    lookupUser uid (l.map fun p => (p.1, f p.2)) = (lookupUser uid l).map f := by
  induction l with
  | nil => rfl
  | cons p rest ih =>
    simp only [List.map_cons, lookupUser]
    by_cases h : p.1 = uid
    · rw [if_pos h, if_pos h]
      rfl
    · rw [if_neg h, if_neg h]
      exact ih

/-- C10: in the worker variant, a user whose meta record has an empty
chats list is skipped entirely by the weekly rollover: zero sends for that
user, and the user's day buckets and open-session marker are unchanged
after the run. -/
theorem runWeekly_skips_chatless (env : Env) (utcMs : Int) (s : WState)
    (uid : String) (u : WUser)
    (hu : lookupUser uid s.users = some u) (hc : u.chats = []) :
    lookupUser uid (runWeekly env utcMs s).users = some u ∧
    ∀ start endW, processUser start endW u = (u, 0) := by
  have hp : ∀ start endW, processUser start endW u = (u, 0) := by
    intro st en
    unfold processUser
    rw [hc]
    simp
  refine ⟨?_, hp⟩
  unfold runWeekly
  dsimp only
  rw [lookupUser_map uid
    (fun v => (processUser (prevLocalWeekWindow (localMsOf env utcMs)).1
      (prevLocalWeekWindow (localMsOf env utcMs)).2 v).1) s.users, hu]
  simp [hp]

/-- Witness for C10: a one-user store whose user has no chats. -/
theorem runWeekly_skips_chatless_witness :
    lookupUser "1"
        (runWeekly ⟨0⟩ 1000000000000
          ⟨[("1", ⟨none, fun _ => none, []⟩)], [], 0⟩).users
      = some ⟨none, fun _ => none, []⟩ ∧
    ∀ start endW, processUser start endW ⟨none, fun _ => none, []⟩
      = (⟨none, fun _ => none, []⟩, 0) :=
  runWeekly_skips_chatless ⟨0⟩ 1000000000000
    ⟨[("1", ⟨none, fun _ => none, []⟩)], [], 0⟩ "1" ⟨none, fun _ => none, []⟩
    rfl rfl

theorem foldl_deleteDay_apply (ks : List DayKey) (d : DayKey → Option DayRec)
    (k' : DayKey) :
    (ks.foldl (fun f k => deleteDay k f) d) k'
      = if k' ∈ ks then none else d k' := by
  induction ks generalizing d with
  | nil => simp
  | cons k ks ih =>
    simp only [List.foldl_cons, ih, deleteDay, List.mem_cons]
    split_ifs <;> tauto

theorem deleteWeekRange_idem (start endW : Int) (u : WUser) :
    deleteWeekRange start endW (deleteWeekRange start endW u)
      = deleteWeekRange start endW u := by
  unfold deleteWeekRange
  dsimp only
  congr 1
  funext k'
  rw [foldl_deleteDay_apply, foldl_deleteDay_apply]
  split_ifs <;> rfl

theorem deleteWeekRange_chats (start endW : Int) (u : WUser) :
    (deleteWeekRange start endW u).chats = u.chats := rfl

theorem processUser_idem (start endW : Int) (u : WUser) :
    processUser start endW (processUser start endW u).1
      = ((processUser start endW u).1, (processUser start endW u).2) := by
  unfold processUser
  by_cases h : u.chats.length = 0
  · rw [if_pos h]
    dsimp only
    rw [if_pos h]
  · rw [if_neg h]
    dsimp only
    rw [deleteWeekRange_chats] at *
    rw [if_neg h, deleteWeekRange_idem]

/-- C3 (amended): the scheduler path is idempotent — a second `scheduled`
trigger in immediate succession finds the `weeklylock:` key set by the
first and changes nothing (no sends, no deletions).  The manual
`/admin/run-weekly` path takes no lock; running it twice leaves the store
(all day buckets and markers) exactly as after the first run — the week's
keys are already deleted, so the second run deletes nothing — but it does
run the job again. -/
theorem weekly_rollover_locking (env : Env) (utcMs : Int) (s : WState) :
    scheduled env utcMs (scheduled env utcMs s) = scheduled env utcMs s ∧
    adminRunWeekly env utcMs s = runWeekly env utcMs s ∧
    (adminRunWeekly env utcMs (adminRunWeekly env utcMs s)).users
      = (adminRunWeekly env utcMs s).users := by
  refine ⟨?_, rfl, ?_⟩
  · unfold scheduled
    dsimp only
    by_cases h : dateKeyLocal (prevLocalWeekWindow (localMsOf env utcMs)).1 ∈ s.locks
    · rw [if_pos h, if_pos h]
    · rw [if_neg h]
      have hmem : dateKeyLocal (prevLocalWeekWindow (localMsOf env utcMs)).1
          ∈ (runWeekly env utcMs
            { s with locks := dateKeyLocal (prevLocalWeekWindow (localMsOf env utcMs)).1
                :: s.locks }).locks := by
        unfold runWeekly
        exact List.mem_cons_self _ _
      rw [if_pos hmem]
  · unfold adminRunWeekly runWeekly
    dsimp only
    rw [List.map_map]
    apply List.map_congr_left
    intro p _
    simp only [Function.comp]
    rw [processUser_idem]

/-- C3 counterexample to the claim as stated: on a store with one user
registered in one chat, the admin trigger invoked twice in immediate
succession sends again on the second invocation (the send counter keeps
growing), because `/admin/run-weekly` acquires no lock. -/
theorem weekly_rollover_admin_resends :
    (adminRunWeekly ⟨0⟩ 1000000000000
        (adminRunWeekly ⟨0⟩ 1000000000000
          ⟨[("1", ⟨none, fun _ => none, [7]⟩)], [], 0⟩)).sent
      ≠ (adminRunWeekly ⟨0⟩ 1000000000000
          ⟨[("1", ⟨none, fun _ => none, [7]⟩)], [], 0⟩).sent := by
  decide

/-! ## Accrual claims -/

/-- C2 (amended): in the worker variant, for a user who clocked in at a
nonzero instant `s` on the current local day with no time in today's
bucket, `cmdToday` reports exactly `now - s` (the raw difference — no
window bound and no clamping is applied in the query); the weekly rollover
adds `max(0, min(now, windowEnd) - start)` for an open session on top of
the closed sums.  In the SQLite variant `getTodayHours` sums closed rows
only, so an open session contributes nothing there. -/
theorem hoursToday_open_session (env : Env) (s now : Int) (u : WUser)
    (hs : s ≠ 0) (hnow : s ≤ now)
    (hnoopen : truthyStart u.openMs = none)
    (hT : (getDayD u.days (dateKeyLocal (localMsOf env s))).totalMs = 0)
    (hsame : dateKeyLocal (localMsOf env now) = dateKeyLocal (localMsOf env s)) :
    cmdTodayTotal env now (cmdIn env s u).1 = now - s ∧
    (∀ utc start endW st (v : WUser), truthyStart v.openMs = some st →
      weeklyTotal utc start endW v
        = closedWeekSum start v + max 0 (min utc endW - st)) ∧
    (∀ off ts nowTs l, getOpenShift l = none →
      getTodayHours off nowTs (clockIn off ts l).1 = getTodayHours off nowTs l) := by
  refine ⟨?_, ?_, ?_⟩
  · unfold cmdIn
    rw [hnoopen]
    unfold cmdTodayTotal
    dsimp only
    rw [hsame]
    unfold putDay truthyStart
    rw [if_pos rfl]
    dsimp only
    rw [if_neg hs]
    dsimp only
    rw [hT]
    simp
  · intro utc start endW st v hv
    unfold weeklyTotal
    rw [hv]
    dsimp only
    split_ifs with h
    · rfl
    · have : max 0 (min utc endW - st) = 0 := by omega
      rw [this]
      ring
  · intro off ts nowTs l hnone
    unfold clockIn
    rw [hnone]
    unfold getTodayHours
    dsimp only
    rw [List.filter_cons]
    split_ifs with h
    · simp
    · rfl

/-- Witness for C2 (amended) at a concrete store: clock in at 01:00 UTC
on 1970-01-01, query at 02:00 the same day. -/
theorem hoursToday_open_session_witness :
    cmdTodayTotal ⟨0⟩ 7200000 (cmdIn ⟨0⟩ 3600000 ⟨none, fun _ => none, []⟩).1
      = 7200000 - 3600000 ∧
    (∀ utc start endW st (v : WUser), truthyStart v.openMs = some st →
      weeklyTotal utc start endW v
        = closedWeekSum start v + max 0 (min utc endW - st)) ∧
    (∀ off ts nowTs l, getOpenShift l = none →
      getTodayHours off nowTs (clockIn off ts l).1 = getTodayHours off nowTs l) :=
  hoursToday_open_session ⟨0⟩ 3600000 7200000 ⟨none, fun _ => none, []⟩
    (by decide) (by decide) rfl rfl (by decide)

/-- C2 counterexample to the claim as stated: in the SQLite variant,
immediately after a clock-in at 09:00 (ts 32400) with no clock-out,
`getTodayHours` at 10:00 (ts 36000) reports 0, not the `now - s` hour the
claim requires. -/
theorem db_hoursToday_open_session_zero :
    getTodayHours 0 36000 (clockIn 0 32400 []).1 = 0 ∧
    ((36000 : ℚ) - 32400) / 3600 ≠ 0 := by
  constructor
  · have hkey : dbDayKey 0 32400 = dbDayKey 0 36000 := by decide
    unfold clockIn getOpenShift
    simp only [List.find?_nil]
    unfold getTodayHours
    simp [List.filter_cons, hkey]
  · norm_num

/-- C4 (amended): what clock-out *reports* is clamped — `durationHours`
in `db.js` clamps at 0, and the worker reply renders the session delta
through `fmtHM`, which clamps — but the amount the worker adds to the day
bucket's stored `totalMs` is the raw `now - start`, so under clock skew
(`now < start`) the stored closed total decreases. -/
theorem clockOut_clamped_report_raw_total (env : Env) (utcMs st : Int)
    (u : WUser) (hopen : u.openMs = some st) (hst : st ≠ 0) :
    ((cmdOut env utcMs u).1.days (dateKeyLocal (localMsOf env utcMs))).map
        DayRec.totalMs
      = some ((getDayD u.days (dateKeyLocal (localMsOf env utcMs))).totalMs
          + (utcMs - st)) ∧
    (cmdOut env utcMs u).2 = OutRes.clockedOut (utcMs - st)
      ((getDayD u.days (dateKeyLocal (localMsOf env utcMs))).totalMs
        + (utcMs - st)) ∧
    (∀ a b : Int, 0 ≤ durationHours a b) ∧
    (∀ ms : Int, fmtHM ms = fmtHM (max 0 ms)) := by
  refine ⟨?_, ?_, ?_, ?_⟩
  · unfold cmdOut truthyStart
    rw [hopen]
    dsimp only
    rw [if_neg hst]
    unfold putDay
    simp
  · unfold cmdOut truthyStart
    rw [hopen]
    dsimp only
    rw [if_neg hst]
  · intro a b
    unfold durationHours
    exact le_max_left 0 _
  · intro ms
    unfold fmtHM
    have h : max 0 (ms / 1000) = max 0 (max 0 ms / 1000) := by omega
    rw [h]

/-- Witness for C4 (amended): clock-out at 01:00 of a session opened at
02:00 (skewed clock): the bucket total becomes `-3600000`. -/
theorem clockOut_clamped_report_raw_total_witness :
    ((cmdOut ⟨0⟩ 3600000 ⟨some 7200000, fun _ => none, []⟩).1.days
        (dateKeyLocal 3600000)).map DayRec.totalMs
      = some ((getDayD (fun _ => none) (dateKeyLocal 3600000)).totalMs
          + (3600000 - 7200000)) ∧
    (cmdOut ⟨0⟩ 3600000 ⟨some 7200000, fun _ => none, []⟩).2
      = OutRes.clockedOut (3600000 - 7200000)
        ((getDayD (fun _ => none) (dateKeyLocal 3600000)).totalMs
          + (3600000 - 7200000)) ∧
    (∀ a b : Int, 0 ≤ durationHours a b) ∧
    (∀ ms : Int, fmtHM ms = fmtHM (max 0 ms)) :=
  clockOut_clamped_report_raw_total ⟨0⟩ 3600000 7200000
    ⟨some 7200000, fun _ => none, []⟩ rfl (by decide)

/-- C4 counterexample to the claim as stated: after the skewed clock-out
the stored day total is negative, so it decreased from its previous value
(0) instead of receiving a clamped, non-negative amount. -/
theorem clockOut_skew_decreases_total :
    (((cmdOut ⟨0⟩ 3600000 ⟨some 7200000, fun _ => none, []⟩).1.days
        (dateKeyLocal 3600000)).map DayRec.totalMs).getD 0 < 0 := by
  decide

/-! ## Error-handling claims -/

/-- C5 (amended): in the node variant the weekly cron wraps the *whole*
user loop in one try/catch, so a delivery error for one user is caught
and logged at run level but aborts the loop — exactly the users before
the first failing one are delivered, and users after it are not processed
(in the worker variant `runWeekly` has no catch at all, so the error
propagates with the same effect on later users). -/
theorem cron_failure_aborts_rest (fails : Int → Bool) (users : List Int) :
    cronWeeklyDeliver fails users
      = (users.takeWhile (fun u => !fails u), users.any fails) := by
  induction users with
  | nil => rfl
  | cons u rest ih =>
    unfold cronWeeklyDeliver
    by_cases h : fails u = true
    · simp [h, List.takeWhile_cons, List.any_cons]
    · simp only [Bool.not_eq_true] at h
      simp [h, List.takeWhile_cons, List.any_cons, ih]

/-- C5 counterexample to the claim as stated: with users `[1, 2]` and a
delivery failure for user 1 only, user 2 — a subsequent user — receives
nothing: the run delivers to no one (and logs one error). -/
theorem cron_failure_skips_subsequent_user :
    cronWeeklyDeliver (fun u => decide (u = 1)) [1, 2] = ([], true) := by
  decide

/-! ## Reset / frame claims -/

/-- C7 (amended): the SQLite `resetWeek` deletes exactly the rows whose
`week_key` is the target week — a shift (open or closed) of any other week
survives — and the worker's `deleteWeekRange` leaves day buckets outside
the window's seven day keys untouched, but it deletes the open-session
marker unconditionally, even when the open session belongs to a different
week. -/
theorem week_reset_frame (off nowTs : Int) (l : Ledger) (sh : Shift)
    (hmem : sh ∈ l) (hwk : sh.week_key ≠ dbIsoMonday off nowTs)
    (start endW : Int) (u : WUser) (k : DayKey)
    (hk : ∀ i : Nat, i < ((endW - start + (msPerDay - 1)) / msPerDay).toNat →
      k ≠ dateKeyLocal (start + (i : Int) * msPerDay)) :
    sh ∈ (resetWeek off nowTs l).1 ∧
    (∀ sh2, sh2 ∈ (resetWeek off nowTs l).1 →
      sh2 ∈ l ∧ sh2.week_key ≠ dbIsoMonday off nowTs) ∧
    (deleteWeekRange start endW u).days k = u.days k ∧
    (deleteWeekRange start endW u).openMs = none := by
  refine ⟨?_, ?_, ?_, rfl⟩
  · unfold resetWeek
    dsimp only
    rw [List.mem_filter]
    exact ⟨hmem, by simpa using hwk⟩
  · intro sh2 h2
    unfold resetWeek at h2
    dsimp only at h2
    rw [List.mem_filter] at h2
    exact ⟨h2.1, by simpa using h2.2⟩
  · unfold deleteWeekRange
    dsimp only
    rw [foldl_deleteDay_apply]
    rw [if_neg]
    intro hmem2
    rw [List.mem_map] at hmem2
    obtain ⟨i, hi, hik⟩ := hmem2
    rw [List.mem_range] at hi
    exact hk i hi hik.symm

/-- Witness for C7: a one-shift ledger whose only (open) shift belongs to
another week survives `resetWeek`, and a day bucket key outside the window
survives `deleteWeekRange`. -/
theorem week_reset_frame_witness :
    (⟨0, none, dbDayKey 0 0, dbIsoMonday 0 0⟩ : Shift)
        ∈ (resetWeek 0 864000 [⟨0, none, dbDayKey 0 0, dbIsoMonday 0 0⟩]).1 ∧
    (∀ sh2, sh2 ∈ (resetWeek 0 864000 [⟨0, none, dbDayKey 0 0, dbIsoMonday 0 0⟩]).1 →
      sh2 ∈ [(⟨0, none, dbDayKey 0 0, dbIsoMonday 0 0⟩ : Shift)] ∧
      sh2.week_key ≠ dbIsoMonday 0 864000) ∧
    (deleteWeekRange 0 (7 * msPerDay)
      ⟨none, fun _ => none, []⟩).days (dateKeyLocal (8 * msPerDay))
      = (fun _ => (none : Option DayRec)) (dateKeyLocal (8 * msPerDay)) ∧
    (deleteWeekRange 0 (7 * msPerDay) ⟨none, fun _ => none, []⟩).openMs = none :=
  week_reset_frame 0 864000 [⟨0, none, dbDayKey 0 0, dbIsoMonday 0 0⟩]
    ⟨0, none, dbDayKey 0 0, dbIsoMonday 0 0⟩ (by simp) (by decide)
    0 (7 * msPerDay) ⟨none, fun _ => none, []⟩ (dateKeyLocal (8 * msPerDay))
    (by decide)

/-- C7 counterexample to the claim as stated: an open session started a
day into the *new* week (start instant `8 * msPerDay`, past the deleted
window `[0, 7 * msPerDay)`) does not survive the worker's week reset: its
marker is cleared unconditionally. -/
theorem deleteWeekRange_clears_new_week_marker :
    (deleteWeekRange 0 (7 * msPerDay)
      ⟨some (8 * msPerDay), fun _ => none, []⟩).openMs
      ≠ some (8 * msPerDay) := by
  decide

/-! ## Rate-resolver claims -/

/-- C8 (amended): `userRate` returns the per-user override exactly when
one is present and *finite* — positivity is not checked on read, so a
stored non-positive finite override is returned as-is — and otherwise
returns the configured global rate; `setUserRate` fails (throws, storing
nothing) iff the value is not a finite positive number, and on success
stores and returns exactly the value. -/
theorem rate_resolver_behavior :
    (∀ q payRate, userRate (some (JSNum.num q)) payRate = q) ∧
    (∀ payRate, userRate none payRate = rate payRate) ∧
    (∀ payRate, userRate (some JSNum.nan) payRate = rate payRate) ∧
    (∀ payRate, userRate (some JSNum.posInf) payRate = rate payRate) ∧
    (∀ payRate, userRate (some JSNum.negInf) payRate = rate payRate) ∧
    (∀ v, (setUserRate v).isSome = true ↔ ∃ q, v = JSNum.num q ∧ 0 < q) ∧
    (∀ v c r, setUserRate v = some (c, r) →
      ∃ q, v = JSNum.num q ∧ 0 < q ∧ c = some (JSNum.num q) ∧ r = q) := by
  refine ⟨fun q payRate => rfl, fun payRate => rfl, fun payRate => rfl,
    fun payRate => rfl, fun payRate => rfl, ?_, ?_⟩
  · intro v
    cases v with
    | num q =>
      unfold setUserRate
      dsimp only
      by_cases h : q ≤ 0
      · rw [if_pos h]
        simp only [Option.isSome_none]
        constructor
        · intro hfalse
          exact absurd hfalse (by simp)
        · rintro ⟨q', hq', hpos⟩
          cases hq'
          exact absurd hpos (not_lt.mpr h)
      · rw [if_neg h]
        simp only [Option.isSome_some, true_iff]
        exact ⟨q, rfl, not_le.mp h⟩
    | nan => simp [setUserRate]
    | posInf => simp [setUserRate]
    | negInf => simp [setUserRate]
  · intro v c r hv
    cases v with
    | num q =>
      unfold setUserRate at hv
      dsimp only at hv
      by_cases h : q ≤ 0
      · rw [if_pos h] at hv
        exact absurd hv (by simp)
      · rw [if_neg h] at hv
        injection hv with hv
        injection hv with h1 h2
        exact ⟨q, rfl, not_le.mp h, h1.symm, h2.symm⟩
    | nan => exact absurd hv (by simp [setUserRate])
    | posInf => exact absurd hv (by simp [setUserRate])
    | negInf => exact absurd hv (by simp [setUserRate])

/-- Witness for C8 (amended) at concrete values: a finite override 3 is
returned, and setting `-1` fails. -/
theorem rate_resolver_behavior_witness :
    userRate (some (JSNum.num 3)) none = 3 :=
  rate_resolver_behavior.1 3 none

/-- C8 counterexample to the claim as stated: a present but *negative*
finite override (`cfg.rate = -1`) is returned by `userRate` instead of
the global default `2.5` the claim requires. -/
theorem negative_override_returned :
    userRate (some (JSNum.num (-1))) none = -1 ∧ rate none = 5 / 2 ∧
      ((-1 : ℚ) ≠ 5 / 2) := by
  refine ⟨rfl, rfl, by norm_num⟩

/-- C9 (amended): clock-in while a session is open fails and leaves the
ledger untouched — unconditionally in the SQLite variant, and in the
worker variant whenever the stored `startUtcMs` is nonzero (a zero start
is falsy in JS and is treated as no open session). -/
theorem clockIn_while_open_rejected (off ts : Int) (l : Ledger) (sh : Shift)
    (hdb : getOpenShift l = some sh)
    (env : Env) (utcMs st : Int) (u : WUser)
    (hopen : u.openMs = some st) (hst : st ≠ 0) :
    clockIn off ts l = (l, false) ∧ cmdIn env utcMs u = (u, InRes.alreadyOpen) := by
  refine ⟨clockIn_of_open off ts l sh hdb, ?_⟩
  unfold cmdIn truthyStart
  rw [hopen]
  dsimp only
  rw [if_neg hst]

/-- Witness for C9 (amended): a ledger with one open shift rejects the
second clock-in, as does a worker user with a nonzero open marker. -/
theorem clockIn_while_open_rejected_witness :
    clockIn 0 200 [⟨100, none, dbDayKey 0 100, dbIsoMonday 0 100⟩]
      = ([⟨100, none, dbDayKey 0 100, dbIsoMonday 0 100⟩], false) ∧
    cmdIn ⟨0⟩ 200 ⟨some 100, fun _ => none, []⟩
      = (⟨some 100, fun _ => none, []⟩, InRes.alreadyOpen) :=
  clockIn_while_open_rejected 0 200 [⟨100, none, dbDayKey 0 100, dbIsoMonday 0 100⟩]
    ⟨100, none, dbDayKey 0 100, dbIsoMonday 0 100⟩ rfl
    ⟨0⟩ 200 100 ⟨some 100, fun _ => none, []⟩ rfl (by decide)

/-- C9 counterexample to the claim as stated: in the worker variant a
stored open marker with `startUtcMs = 0` (clock-in at the epoch instant)
is falsy, so a second clock-in is accepted and replaces the open session's
start time instead of failing with AlreadyOpen. -/
theorem clockIn_while_open_epoch_overwrites :
    (cmdIn ⟨0⟩ 5000 ⟨some 0, fun _ => none, []⟩).2 = InRes.clockedIn ∧
    (cmdIn ⟨0⟩ 5000 ⟨some 0, fun _ => none, []⟩).1.openMs = some 5000 := by
  exact ⟨rfl, rfl⟩
